import Mathlib

/-
Verification development for the clipshr media-download service (src/app.py).

The Python source is shallowly embedded below.  Conventions used throughout:
* byte counts, speeds and percentages (Python floats) are modelled as rationals;
* Python `dict.get` with an absent key is modelled with `Option`;
* a value that Python treats as falsy (`None`, `0`, `""`) is made explicit at
  each use site, mirroring the `if not x` / `x or y` idioms of the source;
* strings are Lean `String`s; character-level work happens on `String.data`.
-/

namespace ClipShr

/-! ## Size formatting (src/app.py, `get_file_size_from_bytes` and `get_file_size`) -/

/-- Rendering of a nonnegative rational with two decimal places, the model of
the Python format `f"\x7bsize:.2f\x7d"`.  Mathlib `round` models rounding to the
nearest hundredth; Python rounds the underlying binary float half-to-even,
which agrees on every value whose scaled form is an exact hundredth (all
values reasoned about below). -/
def fmt2 (q : ℚ) : String :=
  let n : ℕ := (round (q * 100)).toNat
  toString (n / 100) ++ "." ++ (if n % 100 < 10 then "0" else "") ++ toString (n % 100)

/-- The unit list iterated by both size-formatting functions in the source:
`for unit in ["B", "KB", "MB", "GB"]`. -/
def sizeUnits : List String := ["B", "KB", "MB", "GB"]

/-- The division loop shared by `get_file_size` and `get_file_size_from_bytes`:
emit the current unit once the running value drops below 1024, dividing by
1024 per step, with `TB` after the list is exhausted. -/
def fmtLoop : List String → ℚ → String
  | [], size => fmt2 size ++ " TB"
  | u :: rest, size => if size < 1024 then fmt2 size ++ " " ++ u else fmtLoop rest (size / 1024)

/-- Embedding of `get_file_size_from_bytes` (src/app.py lines 277-285).
`none` models an absent size; the source guard `if not bytes_size` also
sends a present size of `0` to `"Unknown"`. -/
def get_file_size_from_bytes : Option ℚ → String
  | none => "Unknown"
  | some b => if b = 0 then "Unknown" else fmtLoop sizeUnits b

/-- Embedding of `get_file_size` (src/app.py lines 43-53).  The argument is
the size reported by `os.path.getsize`; `none` models the exception path
(missing file), which returns `"Unknown"`. -/
def get_file_size : Option ℚ → String
  | none => "Unknown"
  | some size => fmtLoop sizeUnits size

/-- Modelled from the spec: display name of the unit with index `k` in the
ladder B, KB, MB, GB, TB. -/
def unitName : ℕ → String
  | 0 => "B"
  | 1 => "KB"
  | 2 => "MB"
  | 3 => "GB"
  | _ => "TB"

/-- Modelled from the spec: the first unit index whose scaled value is below
1024, capped at TB. -/
def specUnitIdx (n : ℚ) : ℕ :=
  if n < 1024 then 0
  else if n < 1024 ^ 2 then 1
  else if n < 1024 ^ 3 then 2
  else if n < 1024 ^ 4 then 3
  else 4

/-! ### Lemmas about size formatting -/

theorem fmt2_of_nat (q : ℚ) (m : ℕ) (h : q * 100 = (m : ℚ)) :
    fmt2 q = toString (m / 100) ++ "." ++ (if m % 100 < 10 then "0" else "")
      ++ toString (m % 100) := by
  unfold fmt2
  rw [h, round_natCast, Int.toNat_natCast]

theorem fmtLoop_eq (n : ℚ) :
    fmtLoop sizeUnits n = fmt2 (n / 1024 ^ specUnitIdx n) ++ " " ++ unitName (specUnitIdx n) := by
  have h1024 : (0:ℚ) < 1024 := by norm_num
  by_cases h1 : n < 1024
  · rw [specUnitIdx, if_pos h1]
    show fmtLoop sizeUnits n = fmt2 (n / 1024 ^ 0) ++ " " ++ unitName 0
    rw [sizeUnits, fmtLoop, if_pos h1]
    norm_num [unitName]
  · by_cases h2 : n < 1024 ^ 2
    · rw [specUnitIdx, if_neg h1, if_pos h2]
      show fmtLoop sizeUnits n = fmt2 (n / 1024 ^ 1) ++ " " ++ unitName 1
      rw [sizeUnits, fmtLoop, if_neg h1, fmtLoop, if_pos (by rw [div_lt_iff₀ h1024]; nlinarith)]
      norm_num [unitName]
    · by_cases h3 : n < 1024 ^ 3
      · rw [specUnitIdx, if_neg h1, if_neg h2, if_pos h3]
        show fmtLoop sizeUnits n = fmt2 (n / 1024 ^ 2) ++ " " ++ unitName 2
        rw [sizeUnits, fmtLoop, if_neg h1, fmtLoop,
          if_neg (by rw [div_lt_iff₀ h1024]; nlinarith), fmtLoop,
          if_pos (by rw [div_div, div_lt_iff₀ (by norm_num : (0:ℚ) < 1024 * 1024)]; nlinarith)]
        rw [div_div]
        norm_num [unitName]
      · by_cases h4 : n < 1024 ^ 4
        · rw [specUnitIdx, if_neg h1, if_neg h2, if_neg h3, if_pos h4]
          show fmtLoop sizeUnits n = fmt2 (n / 1024 ^ 3) ++ " " ++ unitName 3
          rw [sizeUnits, fmtLoop, if_neg h1, fmtLoop,
            if_neg (by rw [div_lt_iff₀ h1024]; nlinarith), fmtLoop,
            if_neg (by rw [div_div, div_lt_iff₀ (by norm_num : (0:ℚ) < 1024 * 1024)]; nlinarith),
            fmtLoop,
            if_pos (by
              rw [div_div, div_div, div_lt_iff₀ (by norm_num : (0:ℚ) < 1024 * (1024 * 1024))]
              nlinarith)]
          rw [div_div, div_div]
          norm_num [unitName]
        · rw [specUnitIdx, if_neg h1, if_neg h2, if_neg h3, if_neg h4]
          show fmtLoop sizeUnits n = fmt2 (n / 1024 ^ 4) ++ " " ++ unitName 4
          rw [sizeUnits, fmtLoop, if_neg h1, fmtLoop,
            if_neg (by rw [div_lt_iff₀ h1024]; nlinarith), fmtLoop,
            if_neg (by rw [div_div, div_lt_iff₀ (by norm_num : (0:ℚ) < 1024 * 1024)]; nlinarith),
            fmtLoop,
            if_neg (by
              rw [div_div, div_div, div_lt_iff₀ (by norm_num : (0:ℚ) < 1024 * (1024 * 1024))]
              nlinarith),
            fmtLoop]
          rw [String.append_assoc, div_div, div_div, div_div]
          norm_num [unitName]
          rfl

theorem specUnitIdx_scaled_lt (n : ℚ) (h : n < 1024 ^ 5) : n / 1024 ^ specUnitIdx n < 1024 := by
  rw [specUnitIdx]
  by_cases h1 : n < 1024
  · rw [if_pos h1]; norm_num [h1]
  · by_cases h2 : n < 1024 ^ 2
    · rw [if_neg h1, if_pos h2, div_lt_iff₀ (by norm_num : (0:ℚ) < 1024 ^ 1)]; nlinarith
    · by_cases h3 : n < 1024 ^ 3
      · rw [if_neg h1, if_neg h2, if_pos h3, div_lt_iff₀ (by norm_num : (0:ℚ) < 1024 ^ 2)]
        nlinarith
      · by_cases h4 : n < 1024 ^ 4
        · rw [if_neg h1, if_neg h2, if_neg h3, if_pos h4,
            div_lt_iff₀ (by norm_num : (0:ℚ) < 1024 ^ 3)]
          nlinarith
        · rw [if_neg h1, if_neg h2, if_neg h3, if_neg h4,
            div_lt_iff₀ (by norm_num : (0:ℚ) < 1024 ^ 4)]
          nlinarith

theorem specUnitIdx_minimal (n : ℚ) : ∀ j < specUnitIdx n, 1024 ≤ n / 1024 ^ j := by
  intro j hj
  rw [specUnitIdx] at hj
  by_cases h1 : n < 1024
  · rw [if_pos h1] at hj; omega
  · by_cases h2 : n < 1024 ^ 2
    · rw [if_neg h1, if_pos h2] at hj
      interval_cases j
      · norm_num; linarith
    · by_cases h3 : n < 1024 ^ 3
      · rw [if_neg h1, if_neg h2, if_pos h3] at hj
        interval_cases j
        · norm_num; linarith
        · rw [le_div_iff₀ (by norm_num : (0:ℚ) < 1024 ^ 1)]; nlinarith
      · by_cases h4 : n < 1024 ^ 4
        · rw [if_neg h1, if_neg h2, if_neg h3, if_pos h4] at hj
          interval_cases j
          · norm_num; linarith
          · rw [le_div_iff₀ (by norm_num : (0:ℚ) < 1024 ^ 1)]; nlinarith
          · rw [le_div_iff₀ (by norm_num : (0:ℚ) < 1024 ^ 2)]; nlinarith
        · rw [if_neg h1, if_neg h2, if_neg h3, if_neg h4] at hj
          interval_cases j
          · norm_num; linarith
          · rw [le_div_iff₀ (by norm_num : (0:ℚ) < 1024 ^ 1)]; nlinarith
          · rw [le_div_iff₀ (by norm_num : (0:ℚ) < 1024 ^ 2)]; nlinarith
          · rw [le_div_iff₀ (by norm_num : (0:ℚ) < 1024 ^ 3)]; nlinarith

/-! ### Claim C2 -/

/-- C2 counterexample: the shared formatting function maps a present byte
count of 0 to "Unknown" (the source guard `if not bytes_size` treats 0 as
absent), not to "0.00 B" as the claim asserts. -/
theorem c2_counterexample :
    get_file_size_from_bytes (some 0) = "Unknown"
    ∧ get_file_size_from_bytes (some 0) ≠ "0.00 B" := by
  constructor
  · rfl
  · intro h
    exact absurd h (by decide)

/-- C2 (amended) — size formatting: for every positive byte count n,
`get_file_size_from_bytes` returns n scaled by the first power of 1024 that
brings the value below 1024 (capped at TB), printed with two decimals, and
`get_file_size` agrees with it on existing files of that size; the scaled
value is below 1024 whenever any unit of the ladder can achieve that, and
every smaller unit leaves the value at or above 1024.  An absent size gives
"Unknown"; formatSize(1536) = "1.50 KB" and formatSize(1073741824) =
"1.00 GB" as claimed, but a present count of 0 also gives "Unknown" from
`get_file_size_from_bytes`, while `get_file_size` on an existing empty file
gives "0.00 B". -/
theorem c2_size_formatting (n : ℚ) (hpos : 0 < n) :
    get_file_size_from_bytes (some n)
        = fmt2 (n / 1024 ^ specUnitIdx n) ++ " " ++ unitName (specUnitIdx n)
    ∧ get_file_size (some n) = get_file_size_from_bytes (some n)
    ∧ (n < 1024 ^ 5 → n / 1024 ^ specUnitIdx n < 1024)
    ∧ (∀ j < specUnitIdx n, 1024 ≤ n / 1024 ^ j)
    ∧ get_file_size_from_bytes none = "Unknown"
    ∧ get_file_size_from_bytes (some 1536) = "1.50 KB"
    ∧ get_file_size_from_bytes (some 1073741824) = "1.00 GB"
    ∧ get_file_size (some 0) = "0.00 B" := by
  have hne : n ≠ 0 := ne_of_gt hpos
  have hmain : get_file_size_from_bytes (some n)
      = fmt2 (n / 1024 ^ specUnitIdx n) ++ " " ++ unitName (specUnitIdx n) := by
    show (if n = 0 then "Unknown" else fmtLoop sizeUnits n) = _
    rw [if_neg hne]
    exact fmtLoop_eq n
  refine ⟨hmain, ?_, fun h => specUnitIdx_scaled_lt n h, specUnitIdx_minimal n, rfl, ?_, ?_, ?_⟩
  · show fmtLoop sizeUnits n = _
    rw [show get_file_size_from_bytes (some n) = if n = 0 then "Unknown" else fmtLoop sizeUnits n
        from rfl, if_neg hne]
  · show (if (1536:ℚ) = 0 then "Unknown" else fmtLoop sizeUnits 1536) = "1.50 KB"
    rw [if_neg (by norm_num), sizeUnits, fmtLoop, if_neg (by norm_num), fmtLoop,
      if_pos (by norm_num)]
    rw [fmt2_of_nat ((1536:ℚ)/1024) 150 (by norm_num)]
    rfl
  · show (if (1073741824:ℚ) = 0 then "Unknown" else fmtLoop sizeUnits 1073741824) = "1.00 GB"
    rw [if_neg (by norm_num), sizeUnits, fmtLoop, if_neg (by norm_num), fmtLoop,
      if_neg (by norm_num), fmtLoop, if_neg (by norm_num), fmtLoop, if_pos (by norm_num)]
    rw [fmt2_of_nat ((1073741824:ℚ)/1024/1024/1024) 100 (by norm_num)]
    rfl
  · show fmtLoop sizeUnits 0 = "0.00 B"
    rw [sizeUnits, fmtLoop, if_pos (by norm_num), fmt2_of_nat 0 0 (by norm_num)]
    rfl

/-- Witness for C2: the amended theorem applied at the concrete byte count 2048. -/
theorem c2_size_formatting_witness :
    (0:ℚ) < 2048
    ∧ get_file_size_from_bytes (some 2048)
        = fmt2 ((2048:ℚ) / 1024 ^ specUnitIdx 2048) ++ " " ++ unitName (specUnitIdx 2048) :=
  ⟨by decide, (c2_size_formatting 2048 (by decide)).1⟩

/-! ## Filename sanitization (src/app.py, `sanitize_filename`) -/

/-- The character class removed by `re.sub(r'[<>:"/\\|?*]', "", filename)`. -/
def invalidChars : List Char := ['<', '>', ':', '"', '/', '\\', '|', '?', '*']

/-- Whitespace as matched by the regex class `\s` (ASCII range; the argument
below is uniform in the choice of this set). -/
def pyIsSpace (c : Char) : Bool :=
  c == ' ' || c == '\t' || c == '\n' || c == '\r' || c == '\x0b' || c == '\x0c'

/-- Model of `re.sub(r"\s+", " ", s)`: every maximal run of whitespace is
replaced by a single space.  The boolean records whether the previously
emitted source character was whitespace. -/
def collapseAux : Bool → List Char → List Char
  | _, [] => []
  | prevWs, c :: cs =>
    cond (pyIsSpace c)
      (cond prevWs (collapseAux true cs) (' ' :: collapseAux true cs))
      (c :: collapseAux false cs)

/-- Embedding of `sanitize_filename` (src/app.py lines 36-40): drop the
invalid characters, collapse whitespace runs, truncate to 200 characters. -/
def sanitize_filename (s : String) : String :=
  String.mk ((collapseAux false (s.data.filter (fun c => !(invalidChars.contains c)))).take 200)

/-! ### Lemmas about the sanitizer -/

theorem mem_collapseAux {c : Char} : ∀ (b : Bool) (l : List Char),
    c ∈ collapseAux b l → c = ' ' ∨ c ∈ l := by
  intro b l
  induction l generalizing b with
  | nil => intro h; simp [collapseAux] at h
  | cons d ds ih =>
    intro h
    cases hd : pyIsSpace d with
    | false =>
      simp only [collapseAux, hd, Bool.cond_false] at h
      rcases List.mem_cons.mp h with h1 | h1
      · exact Or.inr (h1 ▸ List.mem_cons_self d ds)
      · rcases ih false h1 with h2 | h2
        · exact Or.inl h2
        · exact Or.inr (List.mem_cons_of_mem d h2)
    | true =>
      cases b with
      | true =>
        simp only [collapseAux, hd, Bool.cond_true] at h
        rcases ih true h with h1 | h1
        · exact Or.inl h1
        · exact Or.inr (List.mem_cons_of_mem d h1)
      | false =>
        simp only [collapseAux, hd, Bool.cond_true, Bool.cond_false] at h
        rcases List.mem_cons.mp h with h1 | h1
        · exact Or.inl h1
        · rcases ih true h1 with h2 | h2
          · exact Or.inl h2
          · exact Or.inr (List.mem_cons_of_mem d h2)

theorem collapseAux_chain : ∀ (b : Bool) (l : List Char),
    List.Chain' (fun a c => ¬(pyIsSpace a = true ∧ pyIsSpace c = true)) (collapseAux b l)
    ∧ (∀ hd tl, collapseAux true l = hd :: tl → pyIsSpace hd = false) := by
  intro b l
  induction l generalizing b with
  | nil => exact ⟨by simp [collapseAux], by intro hd tl h; simp [collapseAux] at h⟩
  | cons d ds ih =>
    cases hd : pyIsSpace d with
    | true =>
      refine ⟨?_, ?_⟩
      · cases b with
        | true =>
          simpa only [collapseAux, hd, Bool.cond_true] using (ih true).1
        | false =>
          simp only [collapseAux, hd, Bool.cond_true, Bool.cond_false]
          rcases hrest : collapseAux true ds with _ | ⟨e, es⟩
          · simp
          · refine List.chain'_cons.mpr ⟨?_, ?_⟩
            · intro hcon
              have he := (ih true).2 e es hrest
              rw [he] at hcon
              exact Bool.false_ne_true hcon.2
            · have hch := (ih true).1
              rwa [hrest] at hch
      · intro h0 t0 hEq
        simp only [collapseAux, hd, Bool.cond_true] at hEq
        exact (ih true).2 h0 t0 hEq
    | false =>
      refine ⟨?_, ?_⟩
      · simp only [collapseAux, hd, Bool.cond_false]
        rcases hrest : collapseAux false ds with _ | ⟨e, es⟩
        · simp
        · refine List.chain'_cons.mpr ⟨?_, ?_⟩
          · intro hcon
            rw [hd] at hcon
            exact Bool.false_ne_true hcon.1
          · have hch := (ih false).1
            rwa [hrest] at hch
      · intro h0 t0 hEq
        simp only [collapseAux, hd, Bool.cond_false, List.cons.injEq] at hEq
        rw [← hEq.1]
        exact hd

/-- C10 — sanitize_filename bounds: for every input string the result has
length at most 200, contains none of the characters removed by the first
regex, and contains no two adjacent whitespace characters (hence no run of
two or more consecutive whitespace characters). -/
theorem c10_sanitize_filename_bounds (s : String) :
    (sanitize_filename s).length ≤ 200
    ∧ (∀ c ∈ (sanitize_filename s).data, c ∉ invalidChars)
    ∧ List.Chain' (fun a c => ¬(pyIsSpace a = true ∧ pyIsSpace c = true))
        (sanitize_filename s).data := by
  refine ⟨?_, ?_, ?_⟩
  · show ((collapseAux false (s.data.filter (fun c => !(invalidChars.contains c)))).take 200).length ≤ 200
    exact List.length_take_le 200 _
  · intro c hc
    have hc2 : c ∈ collapseAux false (s.data.filter (fun c => !(invalidChars.contains c))) :=
      List.take_subset 200 _ hc
    rcases mem_collapseAux false _ hc2 with h1 | h1
    · subst h1; decide
    · have := List.of_mem_filter h1
      simpa using this
  · exact ((collapseAux_chain false _).1).take 200


/-- Witness for C10: the membership conjunct of the theorem applied to a
concrete input containing whitespace runs and an invalid character. -/
theorem c10_sanitize_filename_bounds_witness : 'a' ∉ invalidChars :=
  (c10_sanitize_filename_bounds "a  b<c").2.1 'a' (by decide)

/-! ## Progress tracking (src/app.py, `progress_hook` inside `download`) -/

/-- Raw event dictionary passed by the fetch layer to the progress hook.
Absent keys are `none`. -/
structure RawEvent where
  status : String
  downloaded_bytes : Option ℚ
  total_bytes : Option ℚ
  total_bytes_estimate : Option ℚ
  speed : Option ℚ
  eta : Option ℕ
deriving DecidableEq

/-- The canonical per-job record stored in `download_progress`.  The
`downloaded` and `total` keys are present only in records written by the
downloading branch of the hook, hence `Option`. -/
structure ProgressRecord where
  status : String
  percent : ℚ
  speed : String
  eta : String
  downloaded : Option String
  total : Option String
deriving DecidableEq

/-- Model of `d.get("total_bytes") or d.get("total_bytes_estimate", 0)`:
a missing or zero (falsy) `total_bytes` falls back to the estimate, which
itself defaults to 0. -/
def totalOf (e : RawEvent) : ℚ :=
  match e.total_bytes with
  | some t => if t = 0 then e.total_bytes_estimate.getD 0 else t
  | none => e.total_bytes_estimate.getD 0

/-- Model of Python `round(percent, 1)` (one decimal).  Mathlib `round`
rounds ties up where Python rounds the binary float half-to-even; the two
agree away from ties, and no claim below depends on tie behaviour. -/
def round1 (q : ℚ) : ℚ := (round (q * 10) : ℚ) / 10

/-- Embedding of `progress_hook` (src/app.py lines 314-356) acting on the
record stored under the job id.  A raw status other than "downloading" and
"finished" leaves the record unchanged (the function body has no branch for
it). -/
def progress_hook (d : RawEvent) (cur : Option ProgressRecord) : Option ProgressRecord :=
  if d.status = "downloading" then
    let downloaded := d.downloaded_bytes.getD 0
    let total := totalOf d
    let percent : ℚ := if 0 < total then downloaded / total * 100 else 0
    let speed_str :=
      match d.speed with
      | some s =>
        if s = 0 then "0 KB/s"
        else if s < 1024 * 1024 then fmt2 (s / 1024) ++ " KB/s"
        else fmt2 (s / (1024 * 1024)) ++ " MB/s"
      | none => "0 KB/s"
    let etaV := d.eta.getD 0
    let eta_str := if etaV = 0 then "Unknown" else toString etaV ++ "s"
    some { status := "downloading", percent := round1 percent, speed := speed_str,
           eta := eta_str, downloaded := some (get_file_size_from_bytes (some downloaded)),
           total := some (get_file_size_from_bytes (some total)) }
  else if d.status = "finished" then
    some { status := "processing", percent := 100, speed := "Complete",
           eta := "Processing...", downloaded := none, total := none }
  else cur

/-- Sequential processing of a raw event stream for one job id. -/
def runHook (events : List RawEvent) (cur : Option ProgressRecord) : Option ProgressRecord :=
  events.foldl (fun c e => progress_hook e c) cur

/-! ### Lemmas about the hook -/

theorem round1_natCast (m : ℕ) : round1 ((m : ℚ)) = (m : ℚ) := by
  unfold round1
  rw [show ((m : ℚ) * 10) = (((10 * m : ℕ) : ℤ) : ℚ) by push_cast; ring, round_intCast]
  push_cast
  ring

theorem round1_mono {a b : ℚ} (h : a ≤ b) : round1 a ≤ round1 b := by
  unfold round1
  have h2 : round (a * 10) ≤ round (b * 10) := by
    rw [round_eq, round_eq]
    exact Int.floor_mono (by linarith)
  have h3 : ((round (a * 10) : ℤ) : ℚ) ≤ ((round (b * 10) : ℤ) : ℚ) := by exact_mod_cast h2
  linarith

/-! ### Claims C3 and C5 -/

/-- C3 counterexample: a downloading event whose downloaded byte count
exceeds the total (possible when the total is an estimate) is recorded with
percent 200, so the stored percent is not clamped to the interval 0..100. -/
theorem c3_counterexample :
    (progress_hook ⟨"downloading", some 200, some 100, none, none, none⟩ none).map
        ProgressRecord.percent = some 200
    ∧ ¬((200:ℚ) ≤ 100) := by
  constructor
  · show some (ProgressRecord.percent _) = _
    simp only [progress_hook, totalOf, if_pos rfl, Option.getD]
    rw [if_neg (by norm_num : ¬(100:ℚ) = 0), if_pos (by norm_num : (0:ℚ) < 100)]
    rw [show ((200:ℚ) / 100 * 100) = ((200:ℕ) : ℚ) by norm_num, round1_natCast]
    rfl
  · norm_num

/-- C3 (amended) — progress normalization of a downloading event: the
tracker records percent = round(downloaded/total × 100, 1) when total > 0
and percent = 0 otherwise, WITHOUT clamping to 0..100; the speed label uses
KB/s below 1 MiB/s and MB/s at or above it, and the eta label is "Unknown"
when eta is absent or zero. -/
theorem c3_progress_normalization (e : RawEvent) (cur : Option ProgressRecord)
    (h : e.status = "downloading") :
    ∃ r, progress_hook e cur = some r
      ∧ r.status = "downloading"
      ∧ (0 < totalOf e → r.percent = round1 (e.downloaded_bytes.getD 0 / totalOf e * 100))
      ∧ (¬ 0 < totalOf e → r.percent = 0)
      ∧ (∀ s, e.speed = some s → s ≠ 0 → s < 1024 * 1024 → r.speed = fmt2 (s / 1024) ++ " KB/s")
      ∧ (∀ s, e.speed = some s → 1024 * 1024 ≤ s →
          r.speed = fmt2 (s / (1024 * 1024)) ++ " MB/s")
      ∧ (e.eta = none ∨ e.eta = some 0 → r.eta = "Unknown") := by
  refine ⟨_, by rw [progress_hook, if_pos h], rfl, ?_, ?_, ?_, ?_, ?_⟩
  · intro hpos
    show round1 (if 0 < totalOf e then e.downloaded_bytes.getD 0 / totalOf e * 100 else 0) = _
    rw [if_pos hpos]
  · intro hpos
    show round1 (if 0 < totalOf e then e.downloaded_bytes.getD 0 / totalOf e * 100 else 0) = _
    rw [if_neg hpos]
    show round1 ((0:ℕ) : ℚ) = 0
    rw [round1_natCast]
    norm_num
  · intro s hs hs0 hslt
    show (match e.speed with
      | some s =>
        if s = 0 then "0 KB/s"
        else if s < 1024 * 1024 then fmt2 (s / 1024) ++ " KB/s"
        else fmt2 (s / (1024 * 1024)) ++ " MB/s"
      | none => "0 KB/s") = _
    rw [hs]
    simp only [if_neg hs0, if_pos hslt]
  · intro s hs hge
    show (match e.speed with
      | some s =>
        if s = 0 then "0 KB/s"
        else if s < 1024 * 1024 then fmt2 (s / 1024) ++ " KB/s"
        else fmt2 (s / (1024 * 1024)) ++ " MB/s"
      | none => "0 KB/s") = _
    rw [hs]
    have hs0 : ¬s = 0 := by intro h0; rw [h0] at hge; norm_num at hge
    have hlt : ¬s < 1024 * 1024 := by linarith
    simp only [if_neg hs0, if_neg hlt]
  · intro heta
    show (if e.eta.getD 0 = 0 then "Unknown" else toString (e.eta.getD 0) ++ "s") = _
    rcases heta with h0 | h0 <;> rw [h0] <;> rfl

/-- Witness for C3: the amended theorem applied to one concrete downloading
event. -/
theorem c3_progress_normalization_witness :
    ∃ r, progress_hook ⟨"downloading", some 50, some 100, none, some 1024, some 10⟩ none = some r
      ∧ r.status = "downloading"
      ∧ (0 < totalOf ⟨"downloading", some 50, some 100, none, some 1024, some 10⟩ →
          r.percent = round1
            ((⟨"downloading", some 50, some 100, none, some 1024, some 10⟩ :
                RawEvent).downloaded_bytes.getD 0
              / totalOf ⟨"downloading", some 50, some 100, none, some 1024, some 10⟩ * 100))
      ∧ (¬ 0 < totalOf ⟨"downloading", some 50, some 100, none, some 1024, some 10⟩ →
          r.percent = 0)
      ∧ (∀ s, (⟨"downloading", some 50, some 100, none, some 1024, some 10⟩ :
            RawEvent).speed = some s → s ≠ 0 → s < 1024 * 1024 →
          r.speed = fmt2 (s / 1024) ++ " KB/s")
      ∧ (∀ s, (⟨"downloading", some 50, some 100, none, some 1024, some 10⟩ :
            RawEvent).speed = some s → 1024 * 1024 ≤ s →
          r.speed = fmt2 (s / (1024 * 1024)) ++ " MB/s")
      ∧ ((⟨"downloading", some 50, some 100, none, some 1024, some 10⟩ :
            RawEvent).eta = none
          ∨ (⟨"downloading", some 50, some 100, none, some 1024, some 10⟩ :
            RawEvent).eta = some 0 → r.eta = "Unknown") := by
  obtain ⟨r, h1, h2, h3, h4, h5, h6, h7⟩ :=
    c3_progress_normalization ⟨"downloading", some 50, some 100, none, some 1024, some 10⟩
      none rfl
  exact ⟨r, h1, h2, h3, h4, h5, h6, fun h => h7 h⟩

/-- C5 counterexample: two consecutive downloading events for the same job,
the second with more bytes downloaded but a larger revised total estimate,
leave the stored percent strictly smaller (50 then 30) while the phase stays
"downloading" throughout, so percent is not monotonically non-decreasing. -/
theorem c5_counterexample :
    (runHook [⟨"downloading", some 50, some 100, none, none, none⟩] none).map
        ProgressRecord.percent = some 50
    ∧ (runHook [⟨"downloading", some 50, some 100, none, none, none⟩,
        ⟨"downloading", some 60, some 200, none, none, none⟩] none).map
        ProgressRecord.percent = some 30
    ∧ (runHook [⟨"downloading", some 50, some 100, none, none, none⟩,
        ⟨"downloading", some 60, some 200, none, none, none⟩] none).map
        ProgressRecord.status = some "downloading"
    ∧ (30:ℚ) < 50 := by
  refine ⟨?_, ?_, ?_, by norm_num⟩
  · show (progress_hook ⟨"downloading", some 50, some 100, none, none, none⟩ none).map
        ProgressRecord.percent = some 50
    show some (ProgressRecord.percent _) = _
    simp only [progress_hook, totalOf, if_pos rfl, Option.getD]
    rw [if_neg (by norm_num : ¬(100:ℚ) = 0), if_pos (by norm_num : (0:ℚ) < 100)]
    rw [show ((50:ℚ) / 100 * 100) = ((50:ℕ) : ℚ) by norm_num, round1_natCast]
    rfl
  · show (progress_hook ⟨"downloading", some 60, some 200, none, none, none⟩
        (progress_hook ⟨"downloading", some 50, some 100, none, none, none⟩ none)).map
        ProgressRecord.percent = some 30
    show some (ProgressRecord.percent _) = _
    simp only [progress_hook, totalOf, if_pos rfl, Option.getD]
    rw [if_neg (by norm_num : ¬(200:ℚ) = 0), if_pos (by norm_num : (0:ℚ) < 200)]
    rw [show ((60:ℚ) / 200 * 100) = ((30:ℕ) : ℚ) by norm_num, round1_natCast]
    rfl
  · rfl

/-- C5 (amended) — percent monotonicity: the hook stores each downloading
event's own ratio, so the stored percent is non-decreasing across two
downloading events exactly when the ratio does not decrease; in particular
it is non-decreasing whenever the total stays fixed and positive and the
downloaded byte count does not decrease. -/
theorem c5_percent_monotone (e1 e2 : RawEvent) (c1 c2 : Option ProgressRecord)
    (h1 : e1.status = "downloading") (h2 : e2.status = "downloading")
    (ht : totalOf e1 = totalOf e2) (hpos : 0 < totalOf e2)
    (hd : e1.downloaded_bytes.getD 0 ≤ e2.downloaded_bytes.getD 0) :
    ∃ r1 r2, progress_hook e1 c1 = some r1 ∧ progress_hook e2 c2 = some r2
      ∧ r1.status = "downloading" ∧ r2.status = "downloading"
      ∧ r1.percent ≤ r2.percent := by
  refine ⟨_, _, by rw [progress_hook, if_pos h1], by rw [progress_hook, if_pos h2],
    rfl, rfl, ?_⟩
  show round1 (if 0 < totalOf e1 then e1.downloaded_bytes.getD 0 / totalOf e1 * 100 else 0)
      ≤ round1 (if 0 < totalOf e2 then e2.downloaded_bytes.getD 0 / totalOf e2 * 100 else 0)
  rw [if_pos (ht ▸ hpos), if_pos hpos, ht]
  apply round1_mono
  have h100 : (0:ℚ) ≤ 100 := by norm_num
  apply mul_le_mul_of_nonneg_right _ h100
  rw [div_le_div_iff_of_pos_right hpos]
  exact hd

/-- Witness for C5: the amended theorem applied to two concrete downloading
events with a fixed total. -/
theorem c5_percent_monotone_witness :
    ∃ r1 r2,
      progress_hook ⟨"downloading", some 10, some 100, none, none, none⟩ none = some r1
      ∧ progress_hook ⟨"downloading", some 20, some 100, none, none, none⟩ none = some r2
      ∧ r1.status = "downloading" ∧ r2.status = "downloading"
      ∧ r1.percent ≤ r2.percent :=
  c5_percent_monotone ⟨"downloading", some 10, some 100, none, none, none⟩
    ⟨"downloading", some 20, some 100, none, none, none⟩ none none rfl rfl rfl
    (by show (0:ℚ) < 100; norm_num) (by show (10:ℚ) ≤ 20; norm_num)

/-! ## Deletion endpoint (src/app.py, `delete_file`) -/

/-- Character-list test: does the text begin with the pattern? -/
def startsWithL : List Char → List Char → Bool
  | [], _ => true
  | _ :: _, [] => false
  | p :: ps, c :: cs => p == c && startsWithL ps cs

/-- Character-list test: does the pattern occur contiguously in the text? -/
def containsL : List Char → List Char → Bool
  | pat, [] => startsWithL pat []
  | pat, c :: cs => startsWithL pat (c :: cs) || containsL pat cs

/-- Model of the Python substring operator `pat in s`. -/
def strContains (s pat : String) : Bool := containsL pat.data s.data

/-- One record of the persisted history list (the shape appended by the
download handler; `filename` is read back with `item.get("filename")`,
hence `Option`). -/
structure HistoryItem where
  url : String
  filename : Option String
  kind : String
  format : Option String
  timestamp : String
  size : String
deriving DecidableEq

/-- The state the delete endpoint acts on: the set of file names present in
the media folder and the persisted history list. -/
structure DeleteState where
  files : Finset String
  db : List HistoryItem
deriving DecidableEq

/-- Embedding of `delete_file` (src/app.py lines 545-571).  The first
component of the result is (success flag, message); a missing or falsy
(empty) filename and a filename containing "..", "/" or "\\" are rejected
without touching the state.  Otherwise the file is removed when present and
exactly the history records with that filename are dropped. -/
def delete_file (filename : Option String) (st : DeleteState) : (Bool × String) × DeleteState :=
  match filename with
  | none => ((false, "Filename is required"), st)
  | some fn =>
    if fn = "" then ((false, "Filename is required"), st)
    else if strContains fn ".." || strContains fn "/" || strContains fn "\\" then
      ((false, "Invalid filename"), st)
    else
      ((true, "File deleted"),
        ⟨if fn ∈ st.files then st.files.erase fn else st.files,
         st.db.filter (fun item => item.filename != some fn)⟩)

/-- C8 — delete-request validation: every request whose filename is missing
(or empty, which the source treats as missing) or contains a path separator
or the parent-directory marker ".." (every parent-directory segment contains
it) is rejected with an invalid-request error, and neither the media folder
nor the history is modified. -/
theorem c8_delete_validation (filename : Option String) (st : DeleteState)
    (h : filename = none ∨ ∃ s, filename = some s ∧
      (s = "" ∨ strContains s "/" = true ∨ strContains s "\\" = true
        ∨ strContains s ".." = true)) :
    (delete_file filename st).1.1 = false ∧ (delete_file filename st).2 = st := by
  rcases h with h | ⟨s, rfl, hbad⟩
  · subst h; exact ⟨rfl, rfl⟩
  · simp only [delete_file]
    rcases hbad with he | hsub
    · rw [if_pos he]; exact ⟨rfl, rfl⟩
    · by_cases he : s = ""
      · rw [if_pos he]; exact ⟨rfl, rfl⟩
      · rw [if_neg he, if_pos (by rcases hsub with h1 | h1 | h1 <;> simp [h1])]
        exact ⟨rfl, rfl⟩

/-- Witness for C8: a path-traversal filename against a concrete state. -/
theorem c8_delete_validation_witness :
    (delete_file (some "../db.json") ⟨{"a.mp4"}, []⟩).1.1 = false
    ∧ (delete_file (some "../db.json") ⟨{"a.mp4"}, []⟩).2 = ⟨{"a.mp4"}, []⟩ :=
  c8_delete_validation (some "../db.json") ⟨{"a.mp4"}, []⟩
    (Or.inr ⟨"../db.json", rfl, Or.inr (Or.inr (Or.inr (by decide)))⟩)

/-- C9 — delete is idempotent on the filesystem: every validated filename is
reported deleted with success even when no such file exists (the removal is
guarded by an existence check), exactly the history records carrying that
filename are dropped, every other record survives, and an absent file leaves
the media folder untouched. -/
theorem c9_delete_idempotent (s : String) (st : DeleteState)
    (h0 : ¬s = "")
    (h1 : (strContains s ".." || strContains s "/" || strContains s "\\") = false) :
    (delete_file (some s) st).1.1 = true
    ∧ (delete_file (some s) st).2.db = st.db.filter (fun item => item.filename != some s)
    ∧ (∀ item ∈ st.db, item.filename ≠ some s → item ∈ (delete_file (some s) st).2.db)
    ∧ (∀ item ∈ (delete_file (some s) st).2.db, item.filename ≠ some s)
    ∧ (s ∉ st.files → (delete_file (some s) st).2.files = st.files) := by
  have hred : delete_file (some s) st = ((true, "File deleted"),
      ⟨if s ∈ st.files then st.files.erase s else st.files,
       st.db.filter (fun item => item.filename != some s)⟩) := by
    simp only [delete_file]
    rw [if_neg h0, if_neg (by rw [h1]; exact Bool.false_ne_true)]
  refine ⟨by rw [hred], by rw [hred], ?_, ?_, ?_⟩
  · intro item hmem hne
    rw [hred]
    exact List.mem_filter.mpr ⟨hmem, bne_iff_ne.mpr hne⟩
  · intro item hmem
    rw [hred] at hmem
    exact bne_iff_ne.mp (List.mem_filter.mp hmem).2
  · intro hnot
    rw [hred]
    exact if_neg hnot

/-- Witness for C9: deleting a validated filename that is not on disk from a
one-record history. -/
theorem c9_delete_idempotent_witness :
    (delete_file (some "b.mp4") ⟨{"a.mp4"}, [⟨"u", some "a.mp4", "video", none, "t", "1.00 MB"⟩]⟩).1.1 = true
    ∧ (delete_file (some "b.mp4") ⟨{"a.mp4"}, [⟨"u", some "a.mp4", "video", none, "t", "1.00 MB"⟩]⟩).2.db
        = ([⟨"u", some "a.mp4", "video", none, "t", "1.00 MB"⟩] :
            List HistoryItem).filter (fun item => item.filename != some "b.mp4")
    ∧ (∀ item ∈ ([⟨"u", some "a.mp4", "video", none, "t", "1.00 MB"⟩] : List HistoryItem),
        item.filename ≠ some "b.mp4" →
        item ∈ (delete_file (some "b.mp4")
          ⟨{"a.mp4"}, [⟨"u", some "a.mp4", "video", none, "t", "1.00 MB"⟩]⟩).2.db)
    ∧ (∀ item ∈ (delete_file (some "b.mp4")
          ⟨{"a.mp4"}, [⟨"u", some "a.mp4", "video", none, "t", "1.00 MB"⟩]⟩).2.db,
        item.filename ≠ some "b.mp4")
    ∧ ("b.mp4" ∉ ({"a.mp4"} : Finset String) →
        (delete_file (some "b.mp4")
          ⟨{"a.mp4"}, [⟨"u", some "a.mp4", "video", none, "t", "1.00 MB"⟩]⟩).2.files
          = {"a.mp4"}) :=
  c9_delete_idempotent "b.mp4" ⟨{"a.mp4"}, [⟨"u", some "a.mp4", "video", none, "t", "1.00 MB"⟩]⟩
    (by decide) (by decide)

/-! ## Post-processing pipeline (src/app.py, `download` lines 411-478)

The post-processing stage of the download handler is embedded as a pure
function over the set of on-disk files belonging to the job.  `os.path`
name manipulation enters only through `base` and `ext`, the two components
returned by `os.path.splitext(filename)` (so the downloaded source path is
`base ++ ext`).  Each `ffmpeg`/`ffprobe` invocation is resolved by an
oracle; a failing invocation produces no output file, per the encoder
contract (a non-zero exit is a hard failure for the stage). -/

/-- The caller options consumed by the post-processing stage.  `none`
models an absent or falsy JSON field (the source tests them with Python
truthiness). -/
structure Req where
  trim_start : Option String
  trim_end : Option String
  convert_to : Option String
  extract_audio : Bool
  compress : Bool
deriving DecidableEq

/-- Outcomes of the three possible encoder invocations of one job. -/
structure Enc where
  trimOk : Bool
  convertOk : Bool
  compressOk : Bool
deriving DecidableEq

/-- Result of the post-processing stage: the final path on success, or the
stage whose `subprocess.run(..., check=True)` raised (caught by the
`except subprocess.CalledProcessError` handler of `download`). -/
inductive PipeOut where
  | ok (final : String)
  | ffmpegError (stage : String)
deriving DecidableEq

/-- Embedding of the post-processing block of `download` (src/app.py lines
411-478).  `fs0` is the set of files belonging to the job when the block
starts (the downloaded source).  Trimming deletes its input after success;
conversion deletes its input only when it differs from the downloaded
source; compression deletes its input on success and falls back to it on
failure. -/
def postProcess (base ext : String) (r : Req) (enc : Enc) (fs0 : Finset String) :
    PipeOut × Finset String :=
  let filename := base ++ ext
  if r.trim_start.isSome || r.trim_end.isSome || r.convert_to.isSome
      || (r.compress && !r.extract_audio) then
    let trimStage : Option (String × Finset String) :=
      if r.trim_start.isSome || r.trim_end.isSome then
        if enc.trimOk then
          let trim_output := base ++ "_trimmed" ++ ext
          let fs1 := insert trim_output fs0
          some (trim_output, if filename ∈ fs1 then fs1.erase filename else fs1)
        else none
      else some (filename, fs0)
    match trimStage with
    | none => (PipeOut.ffmpegError "trim", fs0)
    | some (temp_file, fs2) =>
      match r.convert_to with
      | some convExt =>
        let final_file := base ++ "." ++ convExt
        if enc.convertOk then
          let fs3 := insert final_file fs2
          (PipeOut.ok final_file,
            if temp_file ∈ fs3 ∧ temp_file ≠ filename then fs3.erase temp_file else fs3)
        else (PipeOut.ffmpegError "convert", fs2)
      | none =>
        if r.compress && !r.extract_audio then
          let compressed_file := base ++ "_compressed" ++ ext
          if enc.compressOk then
            let fs3 := insert compressed_file fs2
            (PipeOut.ok compressed_file,
              if temp_file ∈ fs3 then fs3.erase temp_file else fs3)
          else (PipeOut.ok temp_file, fs2)
        else (PipeOut.ok temp_file, fs2)
  else
    if r.compress && !r.extract_audio then
      if filename ∈ fs0 then
        let compressed_file := base ++ "_compressed" ++ ext
        if enc.compressOk then
          (PipeOut.ok compressed_file, (insert compressed_file fs0).erase filename)
        else (PipeOut.ok filename, fs0)
      else (PipeOut.ok filename, fs0)
    else (PipeOut.ok filename, fs0)

/-! ### Name distinctness of the pipeline artifacts -/

theorem str_ne_of_len (s1 s2 : String) (h : s1.length ≠ s2.length) : s1 ≠ s2 :=
  fun he => h (congrArg String.length he)

theorem trimmed_ne_source (base ext : String) : base ++ "_trimmed" ++ ext ≠ base ++ ext := by
  apply str_ne_of_len
  rw [String.length_append, String.length_append, String.length_append,
    show ("_trimmed" : String).length = 8 from rfl]
  omega

theorem compressed_ne_source (base ext : String) :
    base ++ "_compressed" ++ ext ≠ base ++ ext := by
  apply str_ne_of_len
  rw [String.length_append, String.length_append, String.length_append,
    show ("_compressed" : String).length = 11 from rfl]
  omega

theorem compressed_ne_trimmed (base ext : String) :
    base ++ "_compressed" ++ ext ≠ base ++ "_trimmed" ++ ext := by
  apply str_ne_of_len
  rw [String.length_append, String.length_append, String.length_append,
    String.length_append, show ("_compressed" : String).length = 11 from rfl,
    show ("_trimmed" : String).length = 8 from rfl]
  omega

theorem converted_ne_trimmed (base ext cv : String) :
    base ++ "." ++ cv ≠ base ++ "_trimmed" ++ ext := by
  intro h
  have hd := congrArg String.data h
  simp only [String.data_append, List.append_assoc] at hd
  have h2 := List.append_cancel_left hd
  simp at h2

/-! ### Run equations of the pipeline, one per scenario -/

theorem pp_noop (base ext : String) (r : Req) (enc : Enc) (fs0 : Finset String)
    (h1 : r.trim_start = none) (h2 : r.trim_end = none) (h3 : r.convert_to = none)
    (h4 : (r.compress && !r.extract_audio) = false) :
    postProcess base ext r enc fs0 = (PipeOut.ok (base ++ ext), fs0) := by
  simp [postProcess, h1, h2, h3, h4]

theorem pp_auto_compress_ok (base ext : String) (r : Req) (enc : Enc)
    (h1 : r.trim_start = none) (h2 : r.trim_end = none) (h3 : r.convert_to = none)
    (h4 : (r.compress && !r.extract_audio) = true) (h5 : enc.compressOk = true) :
    postProcess base ext r enc {base ++ ext}
      = (PipeOut.ok (base ++ "_compressed" ++ ext), {base ++ "_compressed" ++ ext}) := by
  have hcne := compressed_ne_source base ext
  simp [postProcess, h1, h2, h3, h4, h5, Finset.erase_insert_of_ne hcne]

theorem pp_auto_compress_fail (base ext : String) (r : Req) (enc : Enc)
    (h1 : r.trim_start = none) (h2 : r.trim_end = none) (h3 : r.convert_to = none)
    (h4 : (r.compress && !r.extract_audio) = true) (h5 : enc.compressOk = false) :
    postProcess base ext r enc {base ++ ext} = (PipeOut.ok (base ++ ext), {base ++ ext}) := by
  simp [postProcess, h1, h2, h3, h4, h5]

theorem pp_trim_fail (base ext : String) (r : Req) (enc : Enc) (fs0 : Finset String)
    (h1 : (r.trim_start.isSome || r.trim_end.isSome) = true) (h2 : enc.trimOk = false) :
    postProcess base ext r enc fs0 = (PipeOut.ffmpegError "trim", fs0) := by
  simp [postProcess, h1, h2]

theorem pp_trim_compress_ok (base ext : String) (r : Req) (enc : Enc)
    (h1 : (r.trim_start.isSome || r.trim_end.isSome) = true) (h2 : enc.trimOk = true)
    (h3 : r.convert_to = none) (h4 : (r.compress && !r.extract_audio) = true)
    (h5 : enc.compressOk = true) :
    postProcess base ext r enc {base ++ ext}
      = (PipeOut.ok (base ++ "_compressed" ++ ext), {base ++ "_compressed" ++ ext}) := by
  have htne := trimmed_ne_source base ext
  have hct := compressed_ne_trimmed base ext
  simp [postProcess, h1, h2, h3, h4, h5, Finset.erase_insert_of_ne htne,
    Finset.erase_insert_of_ne hct]

theorem pp_trim_compress_fail (base ext : String) (r : Req) (enc : Enc)
    (h1 : (r.trim_start.isSome || r.trim_end.isSome) = true) (h2 : enc.trimOk = true)
    (h3 : r.convert_to = none) (h4 : (r.compress && !r.extract_audio) = true)
    (h5 : enc.compressOk = false) :
    postProcess base ext r enc {base ++ ext}
      = (PipeOut.ok (base ++ "_trimmed" ++ ext), {base ++ "_trimmed" ++ ext}) := by
  have htne := trimmed_ne_source base ext
  simp [postProcess, h1, h2, h3, h4, h5, Finset.erase_insert_of_ne htne]

theorem pp_trim_only (base ext : String) (r : Req) (enc : Enc)
    (h1 : (r.trim_start.isSome || r.trim_end.isSome) = true) (h2 : enc.trimOk = true)
    (h3 : r.convert_to = none) (h4 : (r.compress && !r.extract_audio) = false) :
    postProcess base ext r enc {base ++ ext}
      = (PipeOut.ok (base ++ "_trimmed" ++ ext), {base ++ "_trimmed" ++ ext}) := by
  have htne := trimmed_ne_source base ext
  simp [postProcess, h1, h2, h3, h4, Finset.erase_insert_of_ne htne]

theorem pp_trim_convert_ok (base ext : String) (r : Req) (enc : Enc) (cv : String)
    (h1 : (r.trim_start.isSome || r.trim_end.isSome) = true) (h2 : enc.trimOk = true)
    (h3 : r.convert_to = some cv) (h4 : enc.convertOk = true) :
    postProcess base ext r enc {base ++ ext}
      = (PipeOut.ok (base ++ "." ++ cv), {base ++ "." ++ cv}) := by
  have htne := trimmed_ne_source base ext
  have hcvt := converted_ne_trimmed base ext cv
  simp [postProcess, h1, h2, h3, h4, htne, Finset.erase_insert_of_ne htne,
    Finset.erase_insert_of_ne hcvt]

theorem pp_trim_convert_fail (base ext : String) (r : Req) (enc : Enc) (cv : String)
    (h1 : (r.trim_start.isSome || r.trim_end.isSome) = true) (h2 : enc.trimOk = true)
    (h3 : r.convert_to = some cv) (h4 : enc.convertOk = false) :
    postProcess base ext r enc {base ++ ext}
      = (PipeOut.ffmpegError "convert", {base ++ "_trimmed" ++ ext}) := by
  have htne := trimmed_ne_source base ext
  simp [postProcess, h1, h2, h3, h4, Finset.erase_insert_of_ne htne]

theorem pp_convert_ok (base ext : String) (r : Req) (enc : Enc) (cv : String)
    (h1 : r.trim_start = none) (h2 : r.trim_end = none)
    (h3 : r.convert_to = some cv) (h4 : enc.convertOk = true) :
    postProcess base ext r enc {base ++ ext}
      = (PipeOut.ok (base ++ "." ++ cv), insert (base ++ "." ++ cv) {base ++ ext}) := by
  simp [postProcess, h1, h2, h3, h4]

theorem pp_convert_fail (base ext : String) (r : Req) (enc : Enc) (cv : String)
    (h1 : r.trim_start = none) (h2 : r.trim_end = none)
    (h3 : r.convert_to = some cv) (h4 : enc.convertOk = false) :
    postProcess base ext r enc {base ++ ext}
      = (PipeOut.ffmpegError "convert", {base ++ ext}) := by
  simp [postProcess, h1, h2, h3, h4]

/-! ### Claims C1 and C6 -/

theorem c1_goal_of_single (base ext : String) (r : Req) (enc : Enc) (X : String)
    (hrun : postProcess base ext r enc {base ++ ext} = (PipeOut.ok X, {X}))
    (hno : ¬(r.convert_to.isSome = true ∧ r.trim_start = none ∧ r.trim_end = none
      ∧ X ≠ base ++ ext)) :
    (∀ final, (postProcess base ext r enc {base ++ ext}).1 = PipeOut.ok final →
      ((r.convert_to.isSome = true ∧ r.trim_start = none ∧ r.trim_end = none
          ∧ final ≠ base ++ ext) →
        (postProcess base ext r enc {base ++ ext}).2 = {base ++ ext, final})
      ∧ (¬(r.convert_to.isSome = true ∧ r.trim_start = none ∧ r.trim_end = none
          ∧ final ≠ base ++ ext) →
        (postProcess base ext r enc {base ++ ext}).2 = {final}))
    ∧ (∀ st, (postProcess base ext r enc {base ++ ext}).1 = PipeOut.ffmpegError st →
        ∃ g, (postProcess base ext r enc {base ++ ext}).2 = {g}) := by
  constructor
  · intro final hok
    rw [hrun] at hok
    have hok2 : PipeOut.ok X = PipeOut.ok final := hok
    injection hok2 with hXf
    subst hXf
    exact ⟨fun hant => absurd hant hno, fun _ => by rw [hrun]⟩
  · intro st hst
    rw [hrun] at hst
    have hst2 : PipeOut.ok X = PipeOut.ffmpegError st := hst
    exact PipeOut.noConfusion hst2

theorem c1_goal_of_error (base ext : String) (r : Req) (enc : Enc) (stg g : String)
    (hrun : postProcess base ext r enc {base ++ ext} = (PipeOut.ffmpegError stg, {g})) :
    (∀ final, (postProcess base ext r enc {base ++ ext}).1 = PipeOut.ok final →
      ((r.convert_to.isSome = true ∧ r.trim_start = none ∧ r.trim_end = none
          ∧ final ≠ base ++ ext) →
        (postProcess base ext r enc {base ++ ext}).2 = {base ++ ext, final})
      ∧ (¬(r.convert_to.isSome = true ∧ r.trim_start = none ∧ r.trim_end = none
          ∧ final ≠ base ++ ext) →
        (postProcess base ext r enc {base ++ ext}).2 = {final}))
    ∧ (∀ st, (postProcess base ext r enc {base ++ ext}).1 = PipeOut.ffmpegError st →
        ∃ g2, (postProcess base ext r enc {base ++ ext}).2 = {g2}) := by
  constructor
  · intro final hok
    rw [hrun] at hok
    have hok2 : PipeOut.ffmpegError stg = PipeOut.ok final := hok
    exact PipeOut.noConfusion hok2
  · intro st hst
    exact ⟨g, by rw [hrun]⟩

theorem c1_aux_notrim (base ext : String) (r : Req) (enc : Enc)
    (h1 : r.trim_start = none) (h2 : r.trim_end = none) :
    (∀ final, (postProcess base ext r enc {base ++ ext}).1 = PipeOut.ok final →
      ((r.convert_to.isSome = true ∧ r.trim_start = none ∧ r.trim_end = none
          ∧ final ≠ base ++ ext) →
        (postProcess base ext r enc {base ++ ext}).2 = {base ++ ext, final})
      ∧ (¬(r.convert_to.isSome = true ∧ r.trim_start = none ∧ r.trim_end = none
          ∧ final ≠ base ++ ext) →
        (postProcess base ext r enc {base ++ ext}).2 = {final}))
    ∧ (∀ st, (postProcess base ext r enc {base ++ ext}).1 = PipeOut.ffmpegError st →
        ∃ g, (postProcess base ext r enc {base ++ ext}).2 = {g}) := by
  rcases hcv : r.convert_to with _ | cv
  · cases hce : (r.compress && !r.extract_audio)
    · have hres := c1_goal_of_single base ext r enc (base ++ ext)
        (pp_noop base ext r enc {base ++ ext} h1 h2 hcv hce)
        (fun hant => by rw [hcv] at hant; exact absurd hant.1 (by simp))
      rw [hcv] at hres
      exact hres
    · cases hcp : enc.compressOk
      · have hres := c1_goal_of_single base ext r enc (base ++ ext)
          (pp_auto_compress_fail base ext r enc h1 h2 hcv hce hcp)
          (fun hant => by rw [hcv] at hant; exact absurd hant.1 (by simp))
        rw [hcv] at hres
        exact hres
      · have hres := c1_goal_of_single base ext r enc (base ++ "_compressed" ++ ext)
          (pp_auto_compress_ok base ext r enc h1 h2 hcv hce hcp)
          (fun hant => by rw [hcv] at hant; exact absurd hant.1 (by simp))
        rw [hcv] at hres
        exact hres
  · cases hcvOk : enc.convertOk
    · have hres := c1_goal_of_error base ext r enc "convert" (base ++ ext)
        (pp_convert_fail base ext r enc cv h1 h2 hcv hcvOk)
      rw [hcv] at hres
      exact hres
    · have hrun := pp_convert_ok base ext r enc cv h1 h2 hcv hcvOk
      constructor
      · intro final hok
        rw [hrun] at hok
        have hok2 : PipeOut.ok (base ++ "." ++ cv) = PipeOut.ok final := hok
        injection hok2 with hXf
        subst hXf
        by_cases hcf : (base ++ "." ++ cv) = base ++ ext
        · refine ⟨fun hant => absurd hcf hant.2.2.2, fun _ => ?_⟩
          rw [hrun]
          show insert (base ++ "." ++ cv) {base ++ ext} = {base ++ "." ++ cv}
          rw [hcf]
          exact Finset.insert_eq_self.mpr (Finset.mem_singleton_self _)
        · refine ⟨fun _ => ?_, fun hneg => absurd ⟨rfl, h1, h2, hcf⟩ hneg⟩
          rw [hrun]
          show insert (base ++ "." ++ cv) {base ++ ext} = {base ++ ext, base ++ "." ++ cv}
          exact Finset.pair_comm _ _
      · intro st hst
        rw [hrun] at hst
        have hst2 : PipeOut.ok (base ++ "." ++ cv) = PipeOut.ffmpegError st := hst
        exact PipeOut.noConfusion hst2

theorem c1_aux_trim (base ext : String) (r : Req) (enc : Enc)
    (htr : (r.trim_start.isSome || r.trim_end.isSome) = true) :
    (∀ final, (postProcess base ext r enc {base ++ ext}).1 = PipeOut.ok final →
      ((r.convert_to.isSome = true ∧ r.trim_start = none ∧ r.trim_end = none
          ∧ final ≠ base ++ ext) →
        (postProcess base ext r enc {base ++ ext}).2 = {base ++ ext, final})
      ∧ (¬(r.convert_to.isSome = true ∧ r.trim_start = none ∧ r.trim_end = none
          ∧ final ≠ base ++ ext) →
        (postProcess base ext r enc {base ++ ext}).2 = {final}))
    ∧ (∀ st, (postProcess base ext r enc {base ++ ext}).1 = PipeOut.ffmpegError st →
        ∃ g, (postProcess base ext r enc {base ++ ext}).2 = {g}) := by
  have hno : ∀ X : String, ¬(r.convert_to.isSome = true ∧ r.trim_start = none
      ∧ r.trim_end = none ∧ X ≠ base ++ ext) := by
    intro X hant
    rw [hant.2.1, hant.2.2.1] at htr
    simp at htr
  cases htrOk : enc.trimOk
  · exact c1_goal_of_error base ext r enc "trim" (base ++ ext)
      (pp_trim_fail base ext r enc {base ++ ext} htr htrOk)
  · rcases hcv : r.convert_to with _ | cv
    · cases hce : (r.compress && !r.extract_audio)
      · have hres := c1_goal_of_single base ext r enc (base ++ "_trimmed" ++ ext)
          (pp_trim_only base ext r enc htr htrOk hcv hce) (hno _)
        rw [hcv] at hres
        exact hres
      · cases hcp : enc.compressOk
        · have hres := c1_goal_of_single base ext r enc (base ++ "_trimmed" ++ ext)
            (pp_trim_compress_fail base ext r enc htr htrOk hcv hce hcp) (hno _)
          rw [hcv] at hres
          exact hres
        · have hres := c1_goal_of_single base ext r enc (base ++ "_compressed" ++ ext)
            (pp_trim_compress_ok base ext r enc htr htrOk hcv hce hcp) (hno _)
          rw [hcv] at hres
          exact hres
    · cases hcvOk : enc.convertOk
      · have hres := c1_goal_of_error base ext r enc "convert" (base ++ "_trimmed" ++ ext)
          (pp_trim_convert_fail base ext r enc cv htr htrOk hcv hcvOk)
        rw [hcv] at hres
        exact hres
      · have hres := c1_goal_of_single base ext r enc (base ++ "." ++ cv)
          (pp_trim_convert_ok base ext r enc cv htr htrOk hcv hcvOk) (hno _)
        rw [hcv] at hres
        exact hres

/-- C1 counterexample: a job requesting only a conversion (no trim), with
every encoder call succeeding, ends with BOTH the downloaded source and the
converted file on disk — the cleanup guard `temp_file != filename` skips the
deletion of the source when no trim stage ran — so the filesystem does not
contain exactly the reported final artifact. -/
theorem c1_counterexample :
    (postProcess "v" ".mp4" ⟨none, none, some "avi", false, true⟩ ⟨true, true, true⟩
        {"v" ++ ".mp4"}).1 = PipeOut.ok ("v" ++ "." ++ "avi")
    ∧ ("v" ++ ".mp4") ∈ (postProcess "v" ".mp4" ⟨none, none, some "avi", false, true⟩
        ⟨true, true, true⟩ {"v" ++ ".mp4"}).2
    ∧ (postProcess "v" ".mp4" ⟨none, none, some "avi", false, true⟩ ⟨true, true, true⟩
        {"v" ++ ".mp4"}).2 ≠ {"v" ++ "." ++ "avi"} := by
  have hrun := pp_convert_ok "v" ".mp4" ⟨none, none, some "avi", false, true⟩
      ⟨true, true, true⟩ "avi" rfl rfl rfl rfl
  refine ⟨by rw [hrun], ?_, ?_⟩
  · rw [hrun]
    show ("v" ++ ".mp4") ∈ insert ("v" ++ "." ++ "avi") {"v" ++ ".mp4"}
    exact Finset.mem_insert_of_mem (Finset.mem_singleton_self _)
  · rw [hrun]
    intro h
    have hmem : ("v" ++ ".mp4") ∈ ({"v" ++ "." ++ "avi"} : Finset String) := by
      rw [← h]
      exact Finset.mem_insert_of_mem (Finset.mem_singleton_self _)
    rw [Finset.mem_singleton] at hmem
    exact absurd hmem (by decide)

/-- C1 (amended) — pipeline cleanup: starting from the downloaded source as
the only job file, every combination of trim, convert and compress (convert
and compress mutually exclusive by construction) ends with exactly the
reported final path as the only remaining job file — both on success and,
with one file (the failing stage's input), on a trim or convert encoder
failure — EXCEPT that a successful convert without a preceding trim leaves
two files: the downloaded source and the converted final (whenever their
names differ). -/
theorem c1_pipeline_cleanup (base ext : String) (r : Req) (enc : Enc) :
    (∀ final, (postProcess base ext r enc {base ++ ext}).1 = PipeOut.ok final →
      ((r.convert_to.isSome = true ∧ r.trim_start = none ∧ r.trim_end = none
          ∧ final ≠ base ++ ext) →
        (postProcess base ext r enc {base ++ ext}).2 = {base ++ ext, final})
      ∧ (¬(r.convert_to.isSome = true ∧ r.trim_start = none ∧ r.trim_end = none
          ∧ final ≠ base ++ ext) →
        (postProcess base ext r enc {base ++ ext}).2 = {final}))
    ∧ (∀ st, (postProcess base ext r enc {base ++ ext}).1 = PipeOut.ffmpegError st →
        ∃ g, (postProcess base ext r enc {base ++ ext}).2 = {g}) := by
  rcases hts : r.trim_start with _ | tv
  · rcases hte : r.trim_end with _ | ev
    · have hres := c1_aux_notrim base ext r enc hts hte
      rw [hts, hte] at hres
      exact hres
    · have hres := c1_aux_trim base ext r enc (by rw [hte]; simp)
      rw [hts, hte] at hres
      exact hres
  · have hres := c1_aux_trim base ext r enc (by rw [hts]; simp)
    rw [hts] at hres
    exact hres

/-- Witness for C1: a trim-only job with a succeeding encoder, where exactly
the trimmed file remains. -/
theorem c1_pipeline_cleanup_witness :
    (postProcess "v" ".mp4" ⟨some "5", none, none, false, false⟩ ⟨true, true, true⟩
        {"v" ++ ".mp4"}).2 = {"v" ++ "_trimmed" ++ ".mp4"} :=
  (((c1_pipeline_cleanup "v" ".mp4" ⟨some "5", none, none, false, false⟩
      ⟨true, true, true⟩).1 ("v" ++ "_trimmed" ++ ".mp4") (by decide)).2 (by decide))

/-- C6 — compress fallback: when the compress stage's encoder invocation
fails (and the trim stage, if requested, succeeded so that the compress
stage is reached), the pipeline still returns success and the final path is
the pre-compression file — the current file at the time the compress stage
started — which is also the only remaining job file. -/
theorem c6_compress_fallback (base ext : String) (r : Req) (enc : Enc)
    (hconv : r.convert_to = none) (hcomp : r.compress = true) (hea : r.extract_audio = false)
    (hfail : enc.compressOk = false)
    (htrim : (r.trim_start.isSome || r.trim_end.isSome) = true → enc.trimOk = true) :
    postProcess base ext r enc {base ++ ext}
      = (PipeOut.ok (if (r.trim_start.isSome || r.trim_end.isSome) = true
            then base ++ "_trimmed" ++ ext else base ++ ext),
         {if (r.trim_start.isSome || r.trim_end.isSome) = true
            then base ++ "_trimmed" ++ ext else base ++ ext}) := by
  have hce : (r.compress && !r.extract_audio) = true := by rw [hcomp, hea]; rfl
  cases htr : (r.trim_start.isSome || r.trim_end.isSome)
  · have hts : r.trim_start = none := by
      rcases h : r.trim_start with _ | v
      · rfl
      · rw [h] at htr; simp at htr
    have hte : r.trim_end = none := by
      rcases h : r.trim_end with _ | v
      · rfl
      · rw [h] at htr; simp at htr
    rw [if_neg Bool.false_ne_true]
    exact pp_auto_compress_fail base ext r enc hts hte hconv hce hfail
  · rw [if_pos rfl]
    exact pp_trim_compress_fail base ext r enc htr (htrim htr) hconv hce hfail

/-- Witness for C6: a compress-only job whose encoder always fails keeps the
downloaded source as the final path. -/
theorem c6_compress_fallback_witness :
    postProcess "v" ".mp4" ⟨none, none, none, false, true⟩ ⟨true, true, false⟩
        {"v" ++ ".mp4"}
      = (PipeOut.ok (if ((none : Option String).isSome
            || (none : Option String).isSome) = true
          then "v" ++ "_trimmed" ++ ".mp4" else "v" ++ ".mp4"),
        {if ((none : Option String).isSome || (none : Option String).isSome) = true
          then "v" ++ "_trimmed" ++ ".mp4" else "v" ++ ".mp4"}) :=
  c6_compress_fallback "v" ".mp4" ⟨none, none, none, false, true⟩ ⟨true, true, false⟩
    rfl rfl rfl rfl (fun h => absurd h (by decide))

/-! ## Download orchestration (src/app.py, `download` lines 288-529)

The handler is embedded as a function over the global progress map.  The
environment `DlEnv` resolves the outcome of each fallible step: request
parsing (everything before `download_id` is assigned), the fetch, the
encoder invocations and the history write.  Every caught exception funnels
through the two `except` blocks, modelled by `handle_error`. -/

/-- The global `download_progress` table, keyed by job id. -/
def ProgMap : Type := String → Option ProgressRecord

/-- Model of `download_progress[download_id] = {...}`. -/
def setRecord (m : ProgMap) (id : String) (rec : ProgressRecord) : ProgMap :=
  fun k => if k = id then some rec else m k

/-- Model of a field update `download_progress[download_id]["status"] = ...`
(present only when the record exists). -/
def updRecord (m : ProgMap) (id : String) (f : ProgressRecord → ProgressRecord) : ProgMap :=
  fun k => if k = id then (m k).map f else m k

/-- One hook invocation delivered for the job id. -/
def applyHook (id : String) (e : RawEvent) (m : ProgMap) : ProgMap :=
  fun k => if k = id then progress_hook e (m k) else m k

/-- The record created when the job starts (src/app.py lines 305-310). -/
def startingRecord : ProgressRecord :=
  { status := "starting", percent := 0, speed := "0 KB/s", eta := "calculating...",
    downloaded := none, total := none }

/-- The shared tail of both `except` blocks (src/app.py lines 515-516 and
526-527): if an id was assigned and its record exists, mark it "error". -/
def handle_error (download_id : Option String) (m : ProgMap) : ProgMap :=
  match download_id with
  | none => m
  | some id =>
    if (m id).isSome then updRecord m id (fun rec => { rec with status := "error" }) else m

/-- Outcomes of the fallible steps of one request. -/
structure DlEnv where
  parseOk : Bool
  fetchEvents : List RawEvent
  fetchOk : Bool
  enc : Enc
  persistOk : Bool

/-- Epilogue of the handler after the fetch: post-processing result, then
completion mark and history write (src/app.py lines 414-529). -/
def finishRun (id : String) (env : DlEnv) (m3 : ProgMap) :
    PipeOut × Finset String → Option String × ProgMap × Finset String
  | (PipeOut.ok final, fs1) =>
    let m4 := updRecord m3 id
      (fun rec => { rec with status := "complete", percent := 100, eta := "Done" })
    cond env.persistOk (some final, m4, fs1) (none, handle_error (some id) m4, fs1)
  | (PipeOut.ffmpegError _, fs1) => (none, handle_error (some id) m3, fs1)

/-- Embedding of the `download` handler for job id `id` (the timestamp) and
a source file splitting as `base ++ ext`.  The first component is the
reported final path on success and `none` on every error response; the
second is the progress map after the handler returns; the third the job's
files.  A parse failure happens before `download_id` is assigned, hence
`handle_error none`. -/
def download_run (id base ext : String) (r : Req) (env : DlEnv) (m0 : ProgMap) :
    Option String × ProgMap × Finset String :=
  cond env.parseOk
    (let m1 := setRecord m0 id startingRecord
     let m2 := env.fetchEvents.foldl (fun m e => applyHook id e m) m1
     cond env.fetchOk
       (let m3 :=
          cond (r.trim_start.isSome || r.trim_end.isSome || r.convert_to.isSome
              || (r.compress && !r.extract_audio))
            (updRecord m2 id
              (fun rec => { rec with status := "post-processing", eta := "Post-processing..." }))
            (cond (r.compress && !r.extract_audio)
              (updRecord m2 id
                (fun rec => { rec with status := "compressing", eta := "Compressing..." }))
              m2)
        finishRun id env m3 (postProcess base ext r env.enc {base ++ ext}))
       (none, handle_error (some id) m2, ∅))
    (none, handle_error none m0, ∅)

/-! ### Record-existence lemmas -/

theorem progress_hook_isSome (e : RawEvent) (cur : Option ProgressRecord)
    (h : cur.isSome = true) : (progress_hook e cur).isSome = true := by
  unfold progress_hook
  by_cases h1 : e.status = "downloading"
  · rw [if_pos h1]; rfl
  · rw [if_neg h1]
    by_cases h2 : e.status = "finished"
    · rw [if_pos h2]; rfl
    · rw [if_neg h2]; exact h

theorem setRecord_isSome (m : ProgMap) (id : String) (rec : ProgressRecord) :
    ((setRecord m id rec) id).isSome = true := by
  unfold setRecord
  rw [if_pos rfl]
  rfl

theorem updRecord_isSome (m : ProgMap) (id : String) (f : ProgressRecord → ProgressRecord)
    (h : (m id).isSome = true) : ((updRecord m id f) id).isSome = true := by
  unfold updRecord
  rw [if_pos rfl]
  rcases hm : m id with _ | rec
  · rw [hm] at h; exact absurd h (by simp)
  · rfl

theorem foldl_applyHook_isSome (id : String) (events : List RawEvent) (m : ProgMap)
    (h : (m id).isSome = true) :
    ((events.foldl (fun m e => applyHook id e m) m) id).isSome = true := by
  induction events generalizing m with
  | nil => exact h
  | cons e es ih =>
    apply ih
    show ((applyHook id e m) id).isSome = true
    unfold applyHook
    rw [if_pos rfl]
    exact progress_hook_isSome e _ h

theorem handle_error_status (id : String) (m : ProgMap) (h : (m id).isSome = true) :
    ∃ rec, (handle_error (some id) m) id = some rec ∧ rec.status = "error" := by
  simp only [handle_error]
  rw [if_pos h]
  unfold updRecord
  rw [if_pos rfl]
  rcases hm : m id with _ | rec
  · rw [hm] at h; exact absurd h (by simp)
  · exact ⟨_, rfl, rfl⟩

theorem cond_status_isSome (b1 b2 : Bool) (m : ProgMap) (id : String)
    (f g : ProgressRecord → ProgressRecord) (h : (m id).isSome = true) :
    ((cond b1 (updRecord m id f) (cond b2 (updRecord m id g) m)) id).isSome = true := by
  cases b1
  · cases b2
    · exact h
    · exact updRecord_isSome m id g h
  · exact updRecord_isSome m id f h

/-- C7 — error-path progress visibility: whenever the download handler has
assigned a job id (a parsed request) and returns an error response — a
failed fetch, a fatal trim or convert encoder error, or a failed history
write — the job's progress record exists and its phase has been set to
"error" before the handler returns. -/
theorem c7_error_progress (id base ext : String) (r : Req) (env : DlEnv) (m0 : ProgMap)
    (hp : env.parseOk = true)
    (herr : (download_run id base ext r env m0).1 = none) :
    ∃ rec, (download_run id base ext r env m0).2.1 id = some rec ∧ rec.status = "error" := by
  unfold download_run at herr ⊢
  rw [hp, Bool.cond_true] at herr ⊢
  have hm2 : ((env.fetchEvents.foldl (fun m e => applyHook id e m)
      (setRecord m0 id startingRecord)) id).isSome = true :=
    foldl_applyHook_isSome id env.fetchEvents _ (setRecord_isSome m0 id startingRecord)
  cases hf : env.fetchOk
  · rw [hf] at herr
    rw [Bool.cond_false] at herr ⊢
    exact handle_error_status id _ hm2
  · rw [hf] at herr
    rw [Bool.cond_true] at herr ⊢
    have hm3 : ((cond (r.trim_start.isSome || r.trim_end.isSome || r.convert_to.isSome
          || (r.compress && !r.extract_audio))
        (updRecord (env.fetchEvents.foldl (fun m e => applyHook id e m)
            (setRecord m0 id startingRecord)) id
          (fun rec => { rec with status := "post-processing", eta := "Post-processing..." }))
        (cond (r.compress && !r.extract_audio)
          (updRecord (env.fetchEvents.foldl (fun m e => applyHook id e m)
              (setRecord m0 id startingRecord)) id
            (fun rec => { rec with status := "compressing", eta := "Compressing..." }))
          (env.fetchEvents.foldl (fun m e => applyHook id e m)
            (setRecord m0 id startingRecord)))) id).isSome = true :=
      cond_status_isSome _ _ _ id _ _ hm2
    rcases hpp : postProcess base ext r env.enc {base ++ ext} with ⟨out, fs1⟩
    rw [hpp] at herr
    rcases out with final | stg
    · simp only [finishRun] at herr ⊢
      cases hper : env.persistOk
      · rw [hper] at herr
        rw [Bool.cond_false] at herr ⊢
        exact handle_error_status id _ (updRecord_isSome _ id _ hm3)
      · rw [hper, Bool.cond_true] at herr
        exact absurd herr (by simp)
    · simp only [finishRun] at herr ⊢
      exact handle_error_status id _ hm3

/-- Witness for C7: a concrete run whose fetch fails after the record was
created ends with the record in phase "error". -/
theorem c7_error_progress_witness :
    ∃ rec, (download_run "j" "v" ".mp4" ⟨none, none, none, false, true⟩
        ⟨true, [], false, ⟨true, true, true⟩, true⟩ (fun _ => none)).2.1 "j" = some rec
      ∧ rec.status = "error" :=
  c7_error_progress "j" "v" ".mp4" ⟨none, none, none, false, true⟩
    ⟨true, [], false, ⟨true, true, true⟩, true⟩ (fun _ => none) rfl rfl

/-! ## Catalog builder (src/app.py, `analyze` lines 143-250)

The format loop of the analyze endpoint is embedded over a list of raw
stream descriptors.  The dedup key `f"\x7bheight\x7d_\x7bfps\x7d"` is modelled as the
pair (height, fps), which the string encodes injectively for numeric
values.  Python `sort(..., reverse=True)` is stable; the insertion sort
below preserves the relative order of equal heights likewise. -/

/-- One raw format dictionary from the fetch layer; absent keys are `none`.
A `vcodec`/`acodec` value of "none" marks a missing stream, as in yt-dlp. -/
structure StreamDescriptor where
  format_id : String
  vcodec : Option String
  acodec : Option String
  height : Option ℕ
  fps : Option ℚ
  ext : Option String
  abr : Option ℚ
  filesize : Option ℚ
  filesize_approx : Option ℚ
deriving DecidableEq

/-- One selectable offer of the response catalog.  Audio entries carry no
`fps` and no `vcodec` key, hence the `Option` fields. -/
structure CatalogEntry where
  format_id : String
  ext : String
  resolution : String
  fps : Option ℚ
  filesize : String
  filesize_bytes : Option ℚ
  kind : String
  codec : String
  vcodec : Option String
deriving DecidableEq

/-- Digit character of a decimal digit. -/
def decChar (d : ℕ) : Char := Char.ofNat (48 + d)

/-- Decimal rendering of a natural number (the model of the Python
f-string interpolation of `height`). -/
def natStr (n : ℕ) : String :=
  if n = 0 then "0" else String.mk ((Nat.digits 10 n).reverse.map decChar)

/-- Embedding of the codec display-name classification (src/app.py lines
181-187): substring matches on the raw codec tag, defaulting to H.264. -/
def codecName (vcodec : String) : String :=
  if strContains vcodec "vp09" || strContains vcodec "vp9" then "VP9"
  else if strContains vcodec "av01" then "AV1"
  else if strContains vcodec "avc" then "H.264"
  else "H.264"

/-- Model of Python `a or b` on optional numbers: a missing or zero (falsy)
first operand falls back to the second. -/
def pyOrQ (a b : Option ℚ) : Option ℚ :=
  match a with
  | some x => if x = 0 then b else some x
  | none => b

/-- Model of `if filesize: get_file_size_from_bytes(filesize) else "Unknown"`. -/
def truthyLabel (fsz : Option ℚ) : String :=
  match fsz with
  | some x => if x = 0 then "Unknown" else get_file_size_from_bytes (some x)
  | none => "Unknown"

/-- Truthiness of `f.get("height")`: present and nonzero. -/
def heightTruthy (f : StreamDescriptor) : Bool :=
  match f.height with
  | some h => h != 0
  | none => false

/-- The video-format filter (src/app.py lines 150-152). -/
def videoPred (f : StreamDescriptor) : Bool := (f.vcodec != some "none") && heightTruthy f

/-- The audio-format filter (src/app.py lines 154-158). -/
def audioPred (f : StreamDescriptor) : Bool :=
  (f.acodec != some "none") && (f.vcodec == some "none")

/-- The key of `max(audio_formats, key=lambda x: x.get("abr", 0) or 0)`. -/
def abrKey (f : StreamDescriptor) : ℚ := f.abr.getD 0

/-- Python `max` with a key: the first element with the maximal key wins
(later elements replace the current best only when strictly greater). -/
def maxByAbr : List StreamDescriptor → Option StreamDescriptor
  | [] => none
  | a :: rest => some (rest.foldl (fun best x => if abrKey best < abrKey x then x else best) a)

/-- The sort key `x.get("height", 0)`. -/
def heightKey (f : StreamDescriptor) : ℕ := f.height.getD 0

/-- Stable descending insertion by height: an element moves left past
exactly the strictly smaller heights. -/
def insertDesc (x : StreamDescriptor) : List StreamDescriptor → List StreamDescriptor
  | [] => [x]
  | y :: ys => if heightKey y ≤ heightKey x then x :: y :: ys else y :: insertDesc x ys

/-- Stable descending sort by height, the model of
`video_formats.sort(key=..., reverse=True)`. -/
def sortByHeightDesc : List StreamDescriptor → List StreamDescriptor
  | [] => []
  | x :: xs => insertDesc x (sortByHeightDesc xs)

/-- The display truncation `vcodec[:20]`. -/
def trunc20 (s : String) : String := String.mk (s.data.take 20)

/-- The video catalog entry built for a surviving descriptor (src/app.py
lines 180-215). -/
def videoEntry (best_audio : Option StreamDescriptor) (f : StreamDescriptor)
    (h : ℕ) (fps : ℚ) : CatalogEntry :=
  let vcodec := f.vcodec.getD "unknown"
  let fsz := pyOrQ f.filesize f.filesize_approx
  { format_id :=
      match best_audio with
      | some a => f.format_id ++ "+" ++ a.format_id
      | none => f.format_id,
    ext := f.ext.getD "mp4", resolution := natStr h ++ "p", fps := some fps,
    filesize := truthyLabel fsz, filesize_bytes := fsz, kind := "video",
    codec := codecName vcodec, vcodec := some (trunc20 vcodec) }

/-- The audio-only entry built from the best audio descriptor (src/app.py
lines 217-236). -/
def audioEntry (best : StreamDescriptor) : CatalogEntry :=
  let fsz := pyOrQ best.filesize best.filesize_approx
  { format_id := best.format_id, ext := "mp3", resolution := "Audio Only", fps := none,
    filesize := truthyLabel fsz, filesize_bytes := fsz, kind := "audio",
    codec := trunc20 (best.acodec.getD "unknown"), vcodec := none }

/-- The fallback entry emitted when no format survived (src/app.py lines
238-250). -/
def fallbackEntry : CatalogEntry :=
  { format_id := "best", ext := "mp4", resolution := "Best Available", fps := none,
    filesize := "Unknown", filesize_bytes := none, kind := "video", codec := "Unknown",
    vcodec := none }

/-- The format loop with its `seen_combinations` set (src/app.py lines
168-215): skip descriptors without a truthy height or with an already-seen
(height, fps-or-default-30) key; otherwise emit an entry and mark the key. -/
def buildVideoEntries (ba : Option StreamDescriptor) :
    List StreamDescriptor → List (ℕ × ℚ) → List CatalogEntry
  | [], _ => []
  | f :: rest, seen =>
    match f.height with
    | none => buildVideoEntries ba rest seen
    | some h =>
      let fps := f.fps.getD 30
      if h ≠ 0 ∧ (h, fps) ∉ seen then
        videoEntry ba f h fps :: buildVideoEntries ba rest ((h, fps) :: seen)
      else buildVideoEntries ba rest seen

/-- Embedding of the catalog construction of `analyze` (src/app.py lines
143-250). -/
def buildCatalog (all_formats : List StreamDescriptor) : List CatalogEntry :=
  let audio_formats := all_formats.filter audioPred
  let best_audio := maxByAbr audio_formats
  let sorted := sortByHeightDesc (all_formats.filter videoPred)
  let fmts := buildVideoEntries best_audio sorted []
  let fmts2 :=
    match best_audio with
    | some a => fmts ++ [audioEntry a]
    | none => fmts
  if fmts2.isEmpty then [fallbackEntry] else fmts2

/-! ### Catalog lemmas -/

theorem decChar_toNat (d : ℕ) (h : d < 10) : (decChar d).toNat = 48 + d := by
  unfold decChar
  interval_cases d <;> rfl

theorem map_decChar_inj (l1 : List ℕ) : ∀ (l2 : List ℕ), (∀ d ∈ l1, d < 10) →
    (∀ d ∈ l2, d < 10) → l1.map decChar = l2.map decChar → l1 = l2 := by
  induction l1 with
  | nil => intro l2 _ _ h; cases l2; rfl; simp at h
  | cons d ds ih =>
    intro l2 h1 h2 h
    cases l2 with
    | nil => simp at h
    | cons e es =>
      simp only [List.map_cons, List.cons.injEq] at h
      have hd : d = e := by
        have hh := congrArg Char.toNat h.1
        rw [decChar_toNat d (h1 d (List.mem_cons_self d ds)),
          decChar_toNat e (h2 e (List.mem_cons_self e es))] at hh
        omega
      have ht : ds = es :=
        ih es (fun x hx => h1 x (List.mem_cons_of_mem d hx))
          (fun x hx => h2 x (List.mem_cons_of_mem e hx)) h.2
      rw [hd, ht]

theorem digits_rev_lt (n : ℕ) : ∀ d ∈ (Nat.digits 10 n).reverse, d < 10 := fun _ hd =>
  Nat.digits_lt_base (by norm_num) (List.mem_reverse.mp hd)

theorem natStr_injective : Function.Injective natStr := by
  intro a b h
  unfold natStr at h
  by_cases ha : a = 0 <;> by_cases hb : b = 0
  · rw [ha, hb]
  · rw [if_pos ha, if_neg hb] at h
    exfalso
    have hd := congrArg String.data h
    have h1 : ([0] : List ℕ) = (Nat.digits 10 b).reverse :=
      map_decChar_inj [0] _ (by norm_num) (digits_rev_lt b) hd
    have h4 : Nat.digits 10 b = [0] := by
      rw [← List.reverse_reverse (Nat.digits 10 b), ← h1]
      rfl
    have h5 := Nat.ofDigits_digits 10 b
    rw [h4] at h5
    simp [Nat.ofDigits] at h5
    exact hb h5.symm
  · rw [if_neg ha, if_pos hb] at h
    exfalso
    have hd := congrArg String.data h
    have h1 : (Nat.digits 10 a).reverse = ([0] : List ℕ) :=
      map_decChar_inj _ [0] (digits_rev_lt a) (by norm_num) hd
    have h4 : Nat.digits 10 a = [0] := by
      rw [← List.reverse_reverse (Nat.digits 10 a), h1]
      rfl
    have h5 := Nat.ofDigits_digits 10 a
    rw [h4] at h5
    simp [Nat.ofDigits] at h5
    exact ha h5.symm
  · rw [if_neg ha, if_neg hb] at h
    have hd := congrArg String.data h
    have h1 : (Nat.digits 10 a).reverse = (Nat.digits 10 b).reverse :=
      map_decChar_inj _ _ (digits_rev_lt a) (digits_rev_lt b) hd
    exact Nat.digits.injective 10 (List.reverse_inj.mp h1)

theorem resolution_inj (h1 h2 : ℕ) (h : natStr h1 ++ "p" = natStr h2 ++ "p") : h1 = h2 := by
  apply natStr_injective
  have hd := congrArg String.data h
  rw [String.data_append, String.data_append] at hd
  have := List.append_cancel_right hd
  exact congrArg String.mk this

/-- The relation of the at-most-one-entry-per-key property: two entries
differ in their (resolution label, frame rate) pair. -/
def entryKeyNe (e1 e2 : CatalogEntry) : Prop :=
  ¬(e1.resolution = e2.resolution ∧ e1.fps = e2.fps)

theorem buildVideoEntries_kind (ba : Option StreamDescriptor) :
    ∀ (l : List StreamDescriptor) (seen : List (ℕ × ℚ)) (e : CatalogEntry),
      e ∈ buildVideoEntries ba l seen → e.kind = "video" := by
  intro l
  induction l with
  | nil => intro seen e he; simp [buildVideoEntries] at he
  | cons f rest ih =>
    intro seen e he
    rw [buildVideoEntries] at he
    rcases hh : f.height with _ | hv
    · rw [hh] at he
      exact ih seen e he
    · rw [hh] at he
      dsimp only at he
      by_cases hc : hv ≠ 0 ∧ (hv, f.fps.getD 30) ∉ seen
      · rw [if_pos hc] at he
        rcases List.mem_cons.mp he with h1 | h1
        · rw [h1]; rfl
        · exact ih _ e h1
      · rw [if_neg hc] at he
        exact ih seen e he

theorem buildVideoEntries_key (ba : Option StreamDescriptor) :
    ∀ (l : List StreamDescriptor) (seen : List (ℕ × ℚ)) (e : CatalogEntry),
      e ∈ buildVideoEntries ba l seen →
      ∃ hv fps, hv ≠ 0 ∧ (hv, fps) ∉ seen ∧ e.resolution = natStr hv ++ "p"
        ∧ e.fps = some fps := by
  intro l
  induction l with
  | nil => intro seen e he; simp [buildVideoEntries] at he
  | cons f rest ih =>
    intro seen e he
    rw [buildVideoEntries] at he
    rcases hh : f.height with _ | hv
    · rw [hh] at he
      exact ih seen e he
    · rw [hh] at he
      dsimp only at he
      by_cases hc : hv ≠ 0 ∧ (hv, f.fps.getD 30) ∉ seen
      · rw [if_pos hc] at he
        rcases List.mem_cons.mp he with h1 | h1
        · exact ⟨hv, f.fps.getD 30, hc.1, hc.2, by rw [h1]; rfl, by rw [h1]; rfl⟩
        · obtain ⟨hv2, fps2, hne, hnotin, hres, hfps⟩ := ih _ e h1
          refine ⟨hv2, fps2, hne, fun hmem => hnotin (List.mem_cons_of_mem _ hmem), hres, hfps⟩
      · rw [if_neg hc] at he
        exact ih seen e he

theorem buildVideoEntries_pairwise (ba : Option StreamDescriptor) :
    ∀ (l : List StreamDescriptor) (seen : List (ℕ × ℚ)),
      List.Pairwise entryKeyNe (buildVideoEntries ba l seen) := by
  intro l
  induction l with
  | nil => intro seen; simp [buildVideoEntries]
  | cons f rest ih =>
    intro seen
    rw [buildVideoEntries]
    rcases hh : f.height with _ | hv
    · exact ih seen
    · dsimp only
      by_cases hc : hv ≠ 0 ∧ (hv, f.fps.getD 30) ∉ seen
      · rw [if_pos hc]
        refine List.pairwise_cons.mpr ⟨?_, ih _⟩
        intro e he hkey
        obtain ⟨hv2, fps2, _, hnotin, hres, hfps⟩ := buildVideoEntries_key ba rest _ e he
        have hres1 : (videoEntry ba f hv (f.fps.getD 30)).resolution
            = natStr hv ++ "p" := rfl
        have hfps1 : (videoEntry ba f hv (f.fps.getD 30)).fps = some (f.fps.getD 30) := rfl
        have heq1 : natStr hv ++ "p" = natStr hv2 ++ "p" := by
          rw [← hres1, hkey.1, hres]
        have heq2 : some (f.fps.getD 30) = some fps2 := by
          rw [← hfps1, hkey.2, hfps]
        have hhv : hv = hv2 := resolution_inj hv hv2 heq1
        have hfp : f.fps.getD 30 = fps2 := Option.some.inj heq2
        apply hnotin
        rw [← hhv, ← hfp]
        exact List.mem_cons_self _ _
      · rw [if_neg hc]
        exact ih seen

/-- The dedup key the format loop computes for a descriptor: present
exactly when the height is truthy, pairing the height with the frame rate
defaulted to 30. -/
def loopKey (f : StreamDescriptor) : Option (ℕ × ℚ) :=
  match f.height with
  | some h => if h ≠ 0 then some (h, f.fps.getD 30) else none
  | none => none

theorem buildVideoEntries_first_wins (ba : Option StreamDescriptor) :
    ∀ (l : List StreamDescriptor) (seen : List (ℕ × ℚ)) (e : CatalogEntry),
      e ∈ buildVideoEntries ba l seen →
      ∃ l1 f l2 k, l = l1 ++ f :: l2 ∧ loopKey f = some k ∧ k ∉ seen
        ∧ e = videoEntry ba f k.1 k.2 ∧ ∀ g ∈ l1, loopKey g ≠ some k := by
  intro l
  induction l with
  | nil => intro seen e he; simp [buildVideoEntries] at he
  | cons f0 rest ih =>
    intro seen e he
    rw [buildVideoEntries] at he
    rcases hh : f0.height with _ | hv
    · rw [hh] at he
      obtain ⟨l1, f, l2, k, hsplit, hkey, hseen, hent, hfirst⟩ := ih seen e he
      refine ⟨f0 :: l1, f, l2, k, by rw [hsplit]; rfl, hkey, hseen, hent, ?_⟩
      intro g hg
      rcases List.mem_cons.mp hg with h1 | h1
      · rw [h1]
        unfold loopKey
        rw [hh]
        exact fun hcon => Option.noConfusion hcon
      · exact hfirst g h1
    · rw [hh] at he
      dsimp only at he
      by_cases hc : hv ≠ 0 ∧ (hv, f0.fps.getD 30) ∉ seen
      · rw [if_pos hc] at he
        rcases List.mem_cons.mp he with h1 | h1
        · refine ⟨[], f0, rest, (hv, f0.fps.getD 30), rfl, ?_, hc.2, h1, ?_⟩
          · unfold loopKey
            rw [hh]
            dsimp only
            rw [if_pos hc.1]
          · intro g hg
            exact absurd hg (List.not_mem_nil g)
        · obtain ⟨l1, f, l2, k, hsplit, hkey, hseen, hent, hfirst⟩ := ih _ e h1
          have hkne : k ≠ (hv, f0.fps.getD 30) := by
            intro hcon
            exact hseen (hcon ▸ List.mem_cons_self _ _)
          refine ⟨f0 :: l1, f, l2, k, by rw [hsplit]; rfl, hkey,
            fun hmem => hseen (List.mem_cons_of_mem _ hmem), hent, ?_⟩
          intro g hg
          rcases List.mem_cons.mp hg with h2 | h2
          · rw [h2]
            unfold loopKey
            rw [hh]
            dsimp only
            rw [if_pos hc.1]
            intro hcon
            exact hkne (Option.some.inj hcon).symm
          · exact hfirst g h2
      · rw [if_neg hc] at he
        obtain ⟨l1, f, l2, k, hsplit, hkey, hseen, hent, hfirst⟩ := ih seen e he
        refine ⟨f0 :: l1, f, l2, k, by rw [hsplit]; rfl, hkey, hseen, hent, ?_⟩
        intro g hg
        rcases List.mem_cons.mp hg with h2 | h2
        · rw [h2]
          unfold loopKey
          rw [hh]
          dsimp only
          by_cases hz : hv ≠ 0
          · rw [if_pos hz]
            intro hcon
            have hk : (hv, f0.fps.getD 30) = k := Option.some.inj hcon
            apply hc
            refine ⟨hz, ?_⟩
            rw [hk]
            exact hseen
          · rw [if_neg hz]
            exact fun hcon => Option.noConfusion hcon
        · exact hfirst g h2

/-- C4 — catalog shape: the catalog holds at most one video entry per
distinct (resolution label, frame-rate-or-default-30) pair, each video
entry is built from the first descriptor bearing its key in the
height-descending sorted order (first occurrence wins), there is at most
one audio-only entry, and the catalog is exactly the single fallback entry
when the input yields no usable video or audio descriptor. -/
theorem c4_catalog_shape (l : List StreamDescriptor) :
    List.Pairwise entryKeyNe ((buildCatalog l).filter (fun e => e.kind == "video"))
    ∧ (∀ e ∈ buildVideoEntries (maxByAbr (l.filter audioPred))
          (sortByHeightDesc (l.filter videoPred)) [],
        ∃ l1 f l2 k, sortByHeightDesc (l.filter videoPred) = l1 ++ f :: l2
          ∧ loopKey f = some k
          ∧ e = videoEntry (maxByAbr (l.filter audioPred)) f k.1 k.2
          ∧ ∀ g ∈ l1, loopKey g ≠ some k)
    ∧ (buildCatalog l).countP (fun e => e.kind == "audio") ≤ 1
    ∧ (l.filter videoPred = [] → l.filter audioPred = [] →
        buildCatalog l = [fallbackEntry]) := by
  have hfmts_kind := buildVideoEntries_kind (maxByAbr (l.filter audioPred))
    (sortByHeightDesc (l.filter videoPred)) []
  have hfmts_pw := buildVideoEntries_pairwise (maxByAbr (l.filter audioPred))
    (sortByHeightDesc (l.filter videoPred)) []
  have hcat : buildCatalog l =
      (if (match maxByAbr (l.filter audioPred) with
        | some a => buildVideoEntries (maxByAbr (l.filter audioPred))
            (sortByHeightDesc (l.filter videoPred)) [] ++ [audioEntry a]
        | none => buildVideoEntries (maxByAbr (l.filter audioPred))
            (sortByHeightDesc (l.filter videoPred)) []).isEmpty
      then [fallbackEntry]
      else (match maxByAbr (l.filter audioPred) with
        | some a => buildVideoEntries (maxByAbr (l.filter audioPred))
            (sortByHeightDesc (l.filter videoPred)) [] ++ [audioEntry a]
        | none => buildVideoEntries (maxByAbr (l.filter audioPred))
            (sortByHeightDesc (l.filter videoPred)) [])) := rfl
  refine ⟨?_, ?_, ?_, ?_⟩
  case refine_2 =>
    intro e he
    obtain ⟨l1, f, l2, k, hsplit, hkey, _, hent, hfirst⟩ :=
      buildVideoEntries_first_wins _ _ _ e he
    exact ⟨l1, f, l2, k, hsplit, hkey, hent, hfirst⟩
  · rw [hcat]
    rcases hba : maxByAbr (l.filter audioPred) with _ | a
    · rw [hba] at hfmts_kind hfmts_pw
      try dsimp only
      by_cases hemp : (buildVideoEntries none (sortByHeightDesc (l.filter videoPred)) []).isEmpty
      · rw [if_pos hemp]
        rw [show List.filter (fun e => e.kind == "video") [fallbackEntry] = [fallbackEntry]
          from rfl]
        exact List.Pairwise.cons (fun b hb => absurd hb (List.not_mem_nil b)) List.Pairwise.nil
      · rw [if_neg hemp]
        rw [List.filter_eq_self.mpr (fun e he => by rw [hfmts_kind e he]; rfl)]
        exact hfmts_pw
    · rw [hba] at hfmts_kind hfmts_pw
      try dsimp only
      by_cases hemp : (buildVideoEntries (some a) (sortByHeightDesc (l.filter videoPred)) []
          ++ [audioEntry a]).isEmpty
      · rw [if_pos hemp]
        rw [show List.filter (fun e => e.kind == "video") [fallbackEntry] = [fallbackEntry]
          from rfl]
        exact List.Pairwise.cons (fun b hb => absurd hb (List.not_mem_nil b)) List.Pairwise.nil
      · rw [if_neg hemp]
        rw [List.filter_append]
        rw [List.filter_eq_self.mpr (fun e he => by rw [hfmts_kind e he]; rfl)]
        rw [show ([audioEntry a].filter (fun e => e.kind == "video")) = [] from rfl]
        rw [List.append_nil]
        exact hfmts_pw
  · rw [hcat]
    rcases hba : maxByAbr (l.filter audioPred) with _ | a
    · rw [hba] at hfmts_kind
      try dsimp only
      by_cases hemp : (buildVideoEntries none (sortByHeightDesc (l.filter videoPred)) []).isEmpty
      · rw [if_pos hemp]; decide
      · rw [if_neg hemp]
        rw [List.countP_eq_zero.mpr (fun e he => by rw [hfmts_kind e he]; decide)]
        decide
    · rw [hba] at hfmts_kind
      try dsimp only
      by_cases hemp : (buildVideoEntries (some a) (sortByHeightDesc (l.filter videoPred)) []
          ++ [audioEntry a]).isEmpty
      · rw [if_pos hemp]; decide
      · rw [if_neg hemp]
        rw [List.countP_append]
        rw [List.countP_eq_zero.mpr (fun e he => by rw [hfmts_kind e he]; decide)]
        rw [show ([audioEntry a].countP (fun e => e.kind == "audio")) = 1 from rfl]
  · intro h1 h2
    rw [hcat, h1, h2]
    rfl

/-- Witness for C4: the empty descriptor list yields exactly the fallback
entry. -/
theorem c4_catalog_shape_witness : buildCatalog [] = [fallbackEntry] :=
  (c4_catalog_shape []).2.2.2 rfl rfl

end ClipShr
